import Mathlib

/-!
Verification development for the image-matcher engine: fingerprint
extraction, similarity scoring, grouping, and the build/test-server
helpers.  The similarity scorer, fingerprint extractor and grouping
engine live in `image-matcher.js`, which is not part of the available
sources (only its tests, the build script and the README are); those
parts are modelled from the specification, as noted on each definition.
The build script (`generateImageList`, `createTestServer`) is embedded
from its source.

Numeric values are modelled with exact rationals (`ℚ`) in place of
JavaScript floating-point numbers; bit-string hashes are `List Bool`.
-/

namespace ImageMatcher

/-- Modelled from the spec: the error taxonomy of the core
(`InvalidRaster` for malformed pixel buffers, `IncompatibleFingerprints`
for mismatched hash/histogram dimensions). -/
inductive MatcherError where
  | invalidRaster : MatcherError
  | incompatibleFingerprints : MatcherError
  deriving DecidableEq, Repr

/-- A color histogram: three ordered bucket sequences, one per channel. -/
structure Histogram where
  r : List ℚ
  g : List ℚ
  b : List ℚ
  deriving DecidableEq, Repr

/-- An image fingerprint, following the data model of the spec: hashes
are bit strings, the histogram is per-channel bucket masses, dominant
colors are RGB triples.  `id` and `computedAt` are informational. -/
structure Fingerprint where
  id : String
  width : Nat
  height : Nat
  aspectRatio : ℚ
  aHash : List Bool
  dHash : List Bool
  pHash : List Bool
  edgeHash : List Bool
  colorHistogram : Histogram
  dominantColors : List (Nat × Nat × Nat)
  computedAt : Nat
  deriving DecidableEq, Repr

/-- The named sub-scores of a comparison. -/
structure SimilarityDetails where
  aHash : ℚ
  dHash : ℚ
  pHash : ℚ
  edgeHash : ℚ
  histogram : ℚ
  aspectRatio : ℚ
  deriving DecidableEq, Repr

/-- The result of comparing two fingerprints. -/
structure SimilarityResult where
  overall : ℚ
  details : SimilarityDetails
  deriving DecidableEq, Repr

/-- Modelled from the spec: the Hamming distance between two bit
strings, the count of positions where they differ. -/
def hammingDistance (a b : List Bool) : Nat :=
  ((a.zip b).filter (fun p => p.1 != p.2)).length

/-- Modelled from the spec: hash similarity is
`1 - hammingDistance / bitLength`. -/
def hashSimilarity (a b : List Bool) : ℚ :=
  1 - (hammingDistance a b : ℚ) / (a.length : ℚ)

/-- Modelled from the spec: per-channel histogram intersection (the
spec's normalized correlation/intersection measure), clamped to
`[0, 1]`. -/
def channelSimilarity (p q : List ℚ) : ℚ :=
  min 1 (max 0 (List.zipWith min p q).sum)

/-- Modelled from the spec: histogram similarity is the average of the
per-channel measures. -/
def histogramSimilarity (h1 h2 : Histogram) : ℚ :=
  (channelSimilarity h1.r h2.r + channelSimilarity h1.g h2.g
    + channelSimilarity h1.b h2.b) / 3

/-- Modelled from the spec: aspect-ratio similarity is
`1 - min 1 (|a - b| / max a b)`. -/
def aspectSimilarity (a b : ℚ) : ℚ :=
  1 - min 1 (|a - b| / max a b)

/-- Fingerprint compatibility: matching hash bit lengths and histogram
bucket counts, checked before comparison. -/
def compatibleB (fa fb : Fingerprint) : Bool :=
  fa.aHash.length == fb.aHash.length
    && fa.dHash.length == fb.dHash.length
    && fa.pHash.length == fb.pHash.length
    && fa.edgeHash.length == fb.edgeHash.length
    && fa.colorHistogram.r.length == fb.colorHistogram.r.length
    && fa.colorHistogram.g.length == fb.colorHistogram.g.length
    && fa.colorHistogram.b.length == fb.colorHistogram.b.length

/-- Modelled from the spec: the similarity scorer.  Fails with
`IncompatibleFingerprints` on mismatched dimensions; otherwise returns
the six sub-scores and their fixed convex combination with weights
pHash 0.30, aHash 0.20, dHash 0.20, histogram 0.15, edgeHash 0.10,
aspectRatio 0.05. -/
def compare (fa fb : Fingerprint) : Except MatcherError SimilarityResult :=
  if compatibleB fa fb then
    let d : SimilarityDetails :=
      { aHash := hashSimilarity fa.aHash fb.aHash
        dHash := hashSimilarity fa.dHash fb.dHash
        pHash := hashSimilarity fa.pHash fb.pHash
        edgeHash := hashSimilarity fa.edgeHash fb.edgeHash
        histogram := histogramSimilarity fa.colorHistogram fb.colorHistogram
        aspectRatio := aspectSimilarity fa.aspectRatio fb.aspectRatio }
    Except.ok
      { overall := (3/10) * d.pHash + (1/5) * d.aHash + (1/5) * d.dHash
          + (3/20) * d.histogram + (1/10) * d.edgeHash + (1/20) * d.aspectRatio
        details := d }
  else
    Except.error MatcherError.incompatibleFingerprints

/-- A decoded raster buffer: dimensions plus the RGBA byte stream, four
bytes per pixel in row-major order.  Bytes are `Fin 256`, the value
range of the platform's pixel buffers. -/
structure Raster where
  width : Nat
  height : Nat
  data : List (Fin 256)
  deriving DecidableEq, Repr

/-- An RGB pixel. -/
abbrev Pixel := Fin 256 × Fin 256 × Fin 256

/-- Groups the RGBA byte stream into RGB pixel triples, dropping the
alpha byte of each pixel. -/
def pixelsOf : List (Fin 256) → List Pixel
  | r :: g :: b :: _ :: rest => (r, g, b) :: pixelsOf rest
  | _ => []

/-- Modelled from the spec: the grayscale luminance of a pixel (a fixed
convex combination of the channels; the spec fixes no coefficients, so
the common Rec. 601 weights are used). -/
def luminance (p : Pixel) : ℚ :=
  (299 * (p.1 : ℚ) + 587 * (p.2.1 : ℚ) + 114 * (p.2.2 : ℚ)) / 1000

/-- The pixel at column `x`, row `y` (zero pixel out of range). -/
def pixelAt (r : Raster) (x y : Nat) : Pixel :=
  (pixelsOf r.data).getD (y * r.width + x) (0, 0, 0)

/-- Modelled from the spec: area-averaged downsampling; the grid cell
`(cx, cy)` of a `gw × gh` grid averages the luminance of its source
block (at least one sample per cell). -/
def blockAvg (r : Raster) (gw gh cx cy : Nat) : ℚ :=
  let x0 := cx * r.width / gw
  let x1 := max (x0 + 1) ((cx + 1) * r.width / gw)
  let y0 := cy * r.height / gh
  let y1 := max (y0 + 1) ((cy + 1) * r.height / gh)
  let vals := ((List.range (y1 - y0)).map (fun j =>
    (List.range (x1 - x0)).map (fun i =>
      luminance (pixelAt r (x0 + i) (y0 + j))))).flatten
  vals.sum / (vals.length : ℚ)

/-- The `gw × gh` grayscale grid of a raster, as rows of cells. -/
def grid (r : Raster) (gw gh : Nat) : List (List ℚ) :=
  (List.range gh).map (fun cy =>
    (List.range gw).map (fun cx => blockAvg r gw gh cx cy))

/-- Modelled from the spec: the 64-bit average hash; one bit per cell
of the 8×8 grid, set when the cell is at least the grid mean. -/
def computeAverageHash (r : Raster) : List Bool :=
  let cells := (grid r 8 8).flatten
  let mean := cells.sum / (cells.length : ℚ)
  cells.map (fun v => decide (mean ≤ v))

/-- Modelled from the spec: the 64-bit difference hash over a 9×8 grid;
per row, one bit per adjacent horizontal pair, set when the left cell
is at least the right one. -/
def computeDifferenceHash (r : Raster) : List Bool :=
  ((grid r 9 8).map (fun row =>
    (List.range 8).map (fun i =>
      decide (row.getD (i + 1) 0 ≤ row.getD i 0)))).flatten

/-- A fixed rational approximation of π, for the DCT basis. -/
def piQ : ℚ := 355 / 113

/-- Modelled from the spec: the DCT cosine basis.  The real-valued
cosine is replaced by a fixed rational polynomial approximation (the
exact transcendental basis is not representable computably); the
claims settled here do not depend on the basis values. -/
def cosQ (x : ℚ) : ℚ :=
  1 - x ^ 2 / 2 + x ^ 4 / 24 - x ^ 6 / 720

/-- One coefficient of the 2D DCT of a 32×32 grid.  The per-index
orthonormalization factors (irrational) are omitted; see `cosQ`. -/
def dctCoeff (g : List (List ℚ)) (u v : Nat) : ℚ :=
  ((List.range 32).map (fun y =>
    ((List.range 32).map (fun x =>
      (g.getD y []).getD x 0 * cosQ ((2 * x + 1) * u * piQ / 64)
        * cosQ ((2 * y + 1) * v * piQ / 64))).sum)).sum

/-- Modelled from the spec: the perceptual hash; 32×32 grayscale, 2D
DCT, top-left 8×8 coefficient block, median of the 63 non-DC
coefficients, one bit per coefficient (set when at least the median),
padded with one zero bit to 64 bits. -/
def computePerceptualHash (r : Raster) : List Bool :=
  let g := grid r 32 32
  let coeffs := ((List.range 8).map (fun v =>
    (List.range 8).map (fun u => dctCoeff g u v))).flatten
  let ac := coeffs.drop 1
  let med := (List.insertionSort (fun a b : ℚ => a ≤ b) ac).getD 31 0
  (ac.map (fun c => decide (med ≤ c))) ++ [false]

/-- Modelled from the spec: the edge hash; per cell of an 8×8 grid, a
finite-difference gradient magnitude (clamped at the grid border),
thresholded against the mean gradient. -/
def computeEdgeHash (r : Raster) : List Bool :=
  let g := grid r 8 8
  let cell := fun x y => (g.getD y []).getD x 0
  let grads := ((List.range 8).map (fun y =>
    (List.range 8).map (fun x =>
      |cell (min 7 (x + 1)) y - cell x y|
        + |cell x (min 7 (y + 1)) - cell x y|))).flatten
  let mean := grads.sum / (grads.length : ℚ)
  grads.map (fun v => decide (mean ≤ v))

/-- One channel of the color histogram: 256 buckets (one per 8-bit
value), each the fraction of pixels holding that value. -/
def channelHistogram (vals : List (Fin 256)) : List ℚ :=
  (List.range 256).map (fun k =>
    ((vals.countP (fun v => v.val == k) : ℚ)) / (vals.length : ℚ))

/-- Modelled from the spec: the per-channel color histogram, normalized
to probability mass. -/
def computeColorHistogram (px : List Pixel) : Histogram :=
  ⟨channelHistogram (px.map (fun p => p.1)),
   channelHistogram (px.map (fun p => p.2.1)),
   channelHistogram (px.map (fun p => p.2.2))⟩

/-- A k-means centroid in RGB space. -/
abbrev Centroid := ℚ × ℚ × ℚ

def colorToQ (p : Pixel) : Centroid := ((p.1 : ℚ), (p.2.1 : ℚ), (p.2.2 : ℚ))

/-- Squared Euclidean distance between a centroid and a pixel. -/
def sqDist (c : Centroid) (p : Pixel) : ℚ :=
  (c.1 - (p.1 : ℚ)) ^ 2 + (c.2.1 - (p.2.1 : ℚ)) ^ 2
    + (c.2.2 - (p.2.2 : ℚ)) ^ 2

/-- The index of the nearest centroid to a pixel. -/
def nearestIdx (cs : List Centroid) (p : Pixel) : Nat :=
  (cs.enum.foldl
    (fun best q =>
      if sqDist q.2 p < best.2 then (q.1, sqDist q.2 p) else best)
    (0, sqDist (cs.getD 0 (0, 0, 0)) p)).1

/-- One k-means update: each centroid moves to the mean of its assigned
pixels (and stays put when none are assigned). -/
def kmeansStep (px : List Pixel) (cs : List Centroid) : List Centroid :=
  cs.enum.map (fun q =>
    let members := px.filter (fun p => nearestIdx cs p == q.1)
    if members.length == 0 then q.2
    else ((members.map (fun p => ((p.1 : ℚ)))).sum / (members.length : ℚ),
      (members.map (fun p => ((p.2.1 : ℚ)))).sum / (members.length : ℚ),
      (members.map (fun p => ((p.2.2 : ℚ)))).sum / (members.length : ℚ)))

/-- A bounded number of k-means iterations (non-convergence is not an
error; the best centroids found are returned). -/
def kmeansIter : Nat → List Pixel → List Centroid → List Centroid
  | 0, _, cs => cs
  | n + 1, px, cs => kmeansIter n px (kmeansStep px cs)

def roundColor (c : Centroid) : Nat × Nat × Nat :=
  (⌊c.1⌋.toNat, ⌊c.2.1⌋.toNat, ⌊c.2.2⌋.toNat)

/-- Modelled from the spec: dominant colors by k-means with
deterministic initialization (evenly spaced sample points), a bounded
iteration count, and descending sort by assigned-pixel count. -/
def extractDominantColors (px : List Pixel) (k : Nat) : List (Nat × Nat × Nat) :=
  let cs0 := (List.range k).map (fun i =>
    colorToQ (px.getD (i * px.length / k) (0, 0, 0)))
  let cs := kmeansIter 10 px cs0
  let counted := cs.enum.map (fun q =>
    (q.2, (px.filter (fun p => nearestIdx cs p == q.1)).length))
  (@List.insertionSort _ (fun a b => b.2 ≤ a.2) (fun x y => Nat.decLe y.2 x.2)
    counted).map (fun q => roundColor q.1)

/-- Modelled from the spec: the fingerprint extractor.  Fails with
`InvalidRaster` when a dimension is zero or the buffer size does not
match width × height × 4; otherwise produces every derived field
deterministically from the raster (`id` is supplied by the caller in
the source and `computedAt` is informational; both are fixed here). -/
def extractFingerprint (r : Raster) : Except MatcherError Fingerprint :=
  if r.width = 0 ∨ r.height = 0 ∨ r.data.length ≠ r.width * r.height * 4 then
    Except.error MatcherError.invalidRaster
  else
    Except.ok
      { id := ""
        width := r.width
        height := r.height
        aspectRatio := (r.width : ℚ) / (r.height : ℚ)
        aHash := computeAverageHash r
        dHash := computeDifferenceHash r
        pHash := computePerceptualHash r
        edgeHash := computeEdgeHash r
        colorHistogram := computeColorHistogram (pixelsOf r.data)
        dominantColors := extractDominantColors (pixelsOf r.data) 5
        computedAt := 0 }

/-- Concrete rasters for the witnesses. -/
def raster00 : Raster := ⟨0, 0, []⟩

def raster11 : Raster := ⟨1, 1, [10, 20, 30, 255]⟩

def raster11Again : Raster := ⟨1, 1, [10, 20, 30, 255]⟩

/-- Modelled from the spec: the similarity-graph edge test of the
grouping engine.  `score i j` abstracts the overall similarity
`compare` reports for the pair of successfully fingerprinted images
`i < j` among `0, …, n-1`; each unordered pair is an edge exactly when
its overall similarity is at or above the threshold. -/
def edgeB (n : Nat) (score : Nat → Nat → ℚ) (t : ℚ) (i j : Nat) : Bool :=
  decide (i < n) && decide (j < n)
    && (if i < j then decide (t ≤ score i j)
        else if j < i then decide (t ≤ score j i) else false)

/-- One breadth-first expansion of a node set inside `0, …, n-1`. -/
def stepF (adj : Nat → Nat → Bool) (n : Nat) (s : Finset Nat) : Finset Nat :=
  (Finset.range n).filter (fun j => j ∈ s ∨ ∃ i ∈ s, adj i j = true)

/-- `k` breadth-first expansions. -/
def iterF (adj : Nat → Nat → Bool) (n : Nat) : Nat → Finset Nat → Finset Nat
  | 0, s => s
  | k + 1, s => iterF adj n k (stepF adj n s)

/-- The connected component of node `i`, by graph traversal: `n`
expansions of `{i}` saturate, since node sets grow strictly until
stable and live inside `0, …, n-1`. -/
def componentOf (adj : Nat → Nat → Bool) (n i : Nat) : Finset Nat :=
  iterF adj n n {i}

/-- Reachability along the edges of the similarity graph (the spec's
transitive similarity). -/
def Reach (adj : Nat → Nat → Bool) (i j : Nat) : Prop :=
  Relation.ReflTransGen (fun a b => adj a b = true) i j

/-- Modelled from the spec: the grouping engine over the similarity
graph.  Every connected component is emitted once — generated from its
least node, members in ascending order — and components of size 1 are
discarded. -/
def findGroups (n : Nat) (score : Nat → Nat → ℚ) (t : ℚ) : List (List Nat) :=
  (List.range n).filterMap (fun i =>
    if 2 ≤ (componentOf (edgeB n score t) n i).card
        ∧ ∀ j ∈ componentOf (edgeB n score t) n i, i ≤ j then
      some ((List.range n).filter
        (fun j => decide (j ∈ componentOf (edgeB n score t) n i)))
    else none)

/-- The five-image scenario: pairs `{0,1}` and `{1,2}` score at the
threshold, all other pairs below it. -/
def scenScore : Nat → Nat → ℚ := fun i j =>
  if (i = 0 ∧ j = 1) ∨ (i = 1 ∧ j = 2) then 1 else 0

/-- A sample 64-bit hash (all ones), used as a concrete test input. -/
def sampleHash : List Bool := List.replicate 64 true

/-- A 64-bit hash differing from `sampleHash` in exactly one bit. -/
def sampleHashFlip : List Bool := false :: List.replicate 63 true

/-- A concrete sample fingerprint with 2-bucket histograms. -/
def fpA : Fingerprint :=
  { id := "a", width := 2, height := 2, aspectRatio := 1
    aHash := sampleHash, dHash := sampleHash, pHash := sampleHash
    edgeHash := sampleHash
    colorHistogram := ⟨[1, 0], [1, 0], [1, 0]⟩
    dominantColors := [], computedAt := 0 }

/-- A fingerprint whose four hash fields each differ from `fpA` in
exactly 1 bit out of 64. -/
def fpB : Fingerprint :=
  { fpA with
    id := "b"
    aHash := sampleHashFlip
    dHash := sampleHashFlip
    pHash := sampleHashFlip
    edgeHash := sampleHashFlip }

/-- A fingerprint with a different histogram bucket count than `fpA`. -/
def fpC : Fingerprint :=
  { fpA with
    id := "c"
    colorHistogram := ⟨[1, 0, 0], [1, 0, 0], [1, 0, 0]⟩ }

end ImageMatcher

namespace BuildScript

/-! JavaScript strings are modelled as `List Char`, since the build
script manipulates file names and paths character-wise (regular
expression test, `startsWith`, concatenation). -/

/-- Lower-cases an ASCII letter, modelling the case-insensitive flag of
the extension regular expression. -/
def lowerChar (c : Char) : Char :=
  if 'A' ≤ c ∧ c ≤ 'Z' then Char.ofNat (c.toNat + 32) else c

def extJpg : List Char := ".jpg".data
def extJpeg : List Char := ".jpeg".data
def extPng : List Char := ".png".data
def extGif : List Char := ".gif".data
def extWebp : List Char := ".webp".data

/-- From the source (`generateImageList` in the build script): the
filter `/\.(jpg|jpeg|png|gif|webp)$/i` over file names. -/
def isImageFile (name : List Char) : Bool :=
  let l := name.map lowerChar
  List.isSuffixOf extJpg l || List.isSuffixOf extJpeg l
    || List.isSuffixOf extPng l || List.isSuffixOf extGif l
    || List.isSuffixOf extWebp l

/-- Lexicographic comparison of character sequences by code point,
modelling the default JavaScript string sort order. -/
def lexLe : List Char → List Char → Bool
  | [], _ => true
  | _ :: _, [] => false
  | a :: as, b :: bs =>
      if a < b then true else if b < a then false else lexLe as bs

/-- The propositional form of `lexLe`, used as the sorting relation. -/
def lexRel (a b : List Char) : Prop := lexLe a b = true

instance : DecidableRel lexRel :=
  fun a b => inferInstanceAs (Decidable (lexLe a b = true))

/-- One entry of the generated image list. -/
structure ImageEntry where
  id : List Char
  src : List Char
  name : List Char
  index : Nat
  deriving DecidableEq, Repr

def imagesSlash : List Char := "images/".data

/-- From the source: `generateImageList` filters the directory listing
to image files, sorts it, and maps each file (with its position) to an
entry with `id` and `src` both `images/<file>`, `name` the file, and
`index` the position. -/
def generateImageList (files : List (List Char)) : List ImageEntry :=
  (List.insertionSort lexRel (files.filter isImageFile)).enum.map
    (fun p =>
      { id := imagesSlash ++ p.2, src := imagesSlash ++ p.2
        name := p.2, index := p.1 })

/-- An HTTP response of the test server: status code, body, and
optional content type. -/
structure HttpResponse where
  status : Nat
  body : List Char
  contentType : Option (List Char)
  deriving DecidableEq, Repr

def rootPath : List Char := "/".data
def testHtmlPath : List Char := "/test.html".data
def forbiddenBody : List Char := "Forbidden".data
def notFoundBody : List Char := "Not Found".data
def octetStream : List Char := "application/octet-stream".data

def extHtml : List Char := ".html".data
def extJs : List Char := ".js".data
def extCss : List Char := ".css".data
def ctHtml : List Char := "text/html".data
def ctJs : List Char := "application/javascript".data
def ctCss : List Char := "text/css".data
def ctJpeg : List Char := "image/jpeg".data
def ctPng : List Char := "image/png".data
def ctGif : List Char := "image/gif".data
def ctWebp : List Char := "image/webp".data

/-- From the source: the server's mime table, with the
`application/octet-stream` fallback. -/
def mimeLookup (ext : List Char) : List Char :=
  if ext = extHtml then ctHtml
  else if ext = extJs then ctJs
  else if ext = extCss then ctCss
  else if ext = extJpg then ctJpeg
  else if ext = extJpeg then ctJpeg
  else if ext = extPng then ctPng
  else if ext = extGif then ctGif
  else if ext = extWebp then ctWebp
  else octetStream

/-- From the source (`createTestServer`): one request is handled by
resolving the pathname (`/` becomes `/test.html`), joining it with the
server directory, rejecting with 403 `Forbidden` when the joined path
does not start with the server directory, and otherwise attempting to
read the file (404 `Not Found` on failure, 200 with the mime type on
success).  `join`, `extnameFn` and `fsRead` model `path.join`,
`path.extname` and `fs.readFile`; the second component collects every
path whose read is attempted. -/
def handleRequest (dirname : List Char)
    (join : List Char → List Char → List Char)
    (extnameFn : List Char → List Char)
    (fsRead : List Char → Option (List Char))
    (pathname : List Char) : HttpResponse × List (List Char) :=
  let fp0 := if pathname = rootPath then testHtmlPath else pathname
  let fp := join dirname fp0
  if List.isPrefixOf dirname fp = false then
    (⟨403, forbiddenBody, none⟩, [])
  else
    match fsRead fp with
    | none => (⟨404, notFoundBody, none⟩, [fp])
    | some d => (⟨200, d, some (mimeLookup (extnameFn fp))⟩, [fp])

/-- Concrete inputs for the witnesses. -/
def demoFiles : List (List Char) :=
  ["b.png".data, "a.jpg".data, "notes.txt".data]

def demoEntry : ImageEntry :=
  { id := "images/a.jpg".data, src := "images/a.jpg".data
    name := "a.jpg".data, index := 0 }

def srvDir : List Char := "/srv/app".data
def etcPasswd : List Char := "/etc/passwd".data

end BuildScript

namespace ImageMatcher

lemma hammingDistance_self (a : List Bool) : hammingDistance a a = 0 := by
  induction a with
  | nil => rfl
  | cons x l ih =>
      simp only [hammingDistance, List.zip_cons_cons, List.filter, bne_self_eq_false]
      exact ih

lemma hashSimilarity_self (a : List Bool) : hashSimilarity a a = 1 := by
  simp [hashSimilarity, hammingDistance_self]

lemma channelSimilarity_self (p : List ℚ) (hp : p.sum = 1) :
    channelSimilarity p p = 1 := by
  have hz : List.zipWith min p p = p := by
    rw [List.zipWith_same]
    simp
  simp [channelSimilarity, hz, hp]

lemma aspectSimilarity_self (a : ℚ) : aspectSimilarity a a = 1 := by
  simp [aspectSimilarity]

lemma compatibleB_self (f : Fingerprint) : compatibleB f f = true := by
  simp [compatibleB]

/-! ## Theorems about the claims -/

/-- C1: for every pair of compatible fingerprints, the `overall` field
of the result of `compare` is the fixed convex combination of the six
sub-scores with weights pHash 0.30, aHash 0.20, dHash 0.20,
histogram 0.15, edgeHash 0.10, aspectRatio 0.05, and those weights sum
to exactly 1. -/
theorem overall_eq_weighted (fa fb : Fingerprint) (r : SimilarityResult)
    (h : compare fa fb = Except.ok r) :
    r.overall = (3/10) * r.details.pHash + (1/5) * r.details.aHash
      + (1/5) * r.details.dHash + (3/20) * r.details.histogram
      + (1/10) * r.details.edgeHash + (1/20) * r.details.aspectRatio
    ∧ (3/10 : ℚ) + 1/5 + 1/5 + 3/20 + 1/10 + 1/20 = 1 := by
  rw [compare] at h
  split at h
  · injection h with h2
    subst h2
    exact ⟨rfl, by norm_num⟩
  · exact Except.noConfusion h

/-- Witness for C1 at the concrete fingerprints `fpA`, `fpB`. -/
theorem overall_eq_weighted_witness :
    (compare fpA fpB).map
      (fun r => decide (r.overall = (3/10) * r.details.pHash
        + (1/5) * r.details.aHash + (1/5) * r.details.dHash
        + (3/20) * r.details.histogram + (1/10) * r.details.edgeHash
        + (1/20) * r.details.aspectRatio)) = Except.ok true := by
  cases h : compare fpA fpB with
  | error e =>
      have hc : compatibleB fpA fpB = true := by decide
      rw [compare, if_pos hc] at h
      exact Except.noConfusion h
  | ok r =>
      have hw := overall_eq_weighted fpA fpB r h
      simp only [Except.map, Except.ok.injEq, decide_eq_true_eq]
      exact hw.1

/-- C3: each hash sub-score produced by `compare` equals one minus the
Hamming distance between the two bit strings divided by the common bit
length. -/
theorem hash_subscores (fa fb : Fingerprint) (r : SimilarityResult)
    (h : compare fa fb = Except.ok r) :
    r.details.aHash
        = 1 - (hammingDistance fa.aHash fb.aHash : ℚ) / (fa.aHash.length : ℚ)
    ∧ r.details.dHash
        = 1 - (hammingDistance fa.dHash fb.dHash : ℚ) / (fa.dHash.length : ℚ)
    ∧ r.details.pHash
        = 1 - (hammingDistance fa.pHash fb.pHash : ℚ) / (fa.pHash.length : ℚ)
    ∧ r.details.edgeHash
        = 1 - (hammingDistance fa.edgeHash fb.edgeHash : ℚ)
            / (fa.edgeHash.length : ℚ) := by
  rw [compare] at h
  split at h
  · injection h with h2
    subst h2
    refine ⟨?_, ?_, ?_, ?_⟩ <;> rfl
  · exact Except.noConfusion h

/-- Witness for C3: `fpA` and `fpB` differ in exactly 1 bit out of 64
in every hash field, and every hash sub-score equals 63/64. -/
theorem hash_subscores_witness :
    (compare fpA fpB).map
      (fun r => decide (r.details.aHash = 63/64 ∧ r.details.dHash = 63/64
        ∧ r.details.pHash = 63/64 ∧ r.details.edgeHash = 63/64))
      = Except.ok true := by
  cases h : compare fpA fpB with
  | error e =>
      have hc : compatibleB fpA fpB = true := by decide
      rw [compare, if_pos hc] at h
      exact Except.noConfusion h
  | ok r =>
      have hw := hash_subscores fpA fpB r h
      have hda : hammingDistance fpA.aHash fpB.aHash = 1 := by decide
      have hla : fpA.aHash.length = 64 := by decide
      have hdd : hammingDistance fpA.dHash fpB.dHash = 1 := by decide
      have hld : fpA.dHash.length = 64 := by decide
      have hdp : hammingDistance fpA.pHash fpB.pHash = 1 := by decide
      have hlp : fpA.pHash.length = 64 := by decide
      have hde : hammingDistance fpA.edgeHash fpB.edgeHash = 1 := by decide
      have hle : fpA.edgeHash.length = 64 := by decide
      simp only [Except.map, Except.ok.injEq, decide_eq_true_eq]
      refine ⟨?_, ?_, ?_, ?_⟩
      · rw [hw.1, hda, hla]; norm_num
      · rw [hw.2.1, hdd, hld]; norm_num
      · rw [hw.2.2.1, hdp, hlp]; norm_num
      · rw [hw.2.2.2, hde, hle]; norm_num

/-- C5: comparing a fingerprint with itself (with normalized histogram
channels) yields an overall score of exactly 1. -/
theorem self_compare_overall_one (f : Fingerprint)
    (h : f.colorHistogram.r.sum = 1 ∧ f.colorHistogram.g.sum = 1
      ∧ f.colorHistogram.b.sum = 1) :
    (compare f f).map SimilarityResult.overall = Except.ok 1 := by
  rw [compare, if_pos (compatibleB_self f)]
  simp only [Except.map]
  congr 1
  rw [hashSimilarity_self, hashSimilarity_self, hashSimilarity_self,
    hashSimilarity_self, aspectSimilarity_self, histogramSimilarity,
    channelSimilarity_self _ h.1, channelSimilarity_self _ h.2.1,
    channelSimilarity_self _ h.2.2]
  norm_num

/-- Witness for C5 at the concrete fingerprint `fpA`. -/
theorem self_compare_overall_one_witness :
    (fpA.colorHistogram.r.sum = 1 ∧ fpA.colorHistogram.g.sum = 1
      ∧ fpA.colorHistogram.b.sum = 1)
    ∧ (compare fpA fpA).map SimilarityResult.overall = Except.ok 1 :=
  ⟨⟨by norm_num [fpA], by norm_num [fpA], by norm_num [fpA]⟩,
    self_compare_overall_one fpA
      ⟨by norm_num [fpA], by norm_num [fpA], by norm_num [fpA]⟩⟩

/-- C8: `compare` fails with `IncompatibleFingerprints` whenever the two
fingerprints have mismatched hash bit lengths or mismatched histogram
bucket counts, producing no `SimilarityResult`. -/
theorem incompatible_errors (fa fb : Fingerprint)
    (h : fa.aHash.length ≠ fb.aHash.length
      ∨ fa.dHash.length ≠ fb.dHash.length
      ∨ fa.pHash.length ≠ fb.pHash.length
      ∨ fa.edgeHash.length ≠ fb.edgeHash.length
      ∨ fa.colorHistogram.r.length ≠ fb.colorHistogram.r.length
      ∨ fa.colorHistogram.g.length ≠ fb.colorHistogram.g.length
      ∨ fa.colorHistogram.b.length ≠ fb.colorHistogram.b.length) :
    compare fa fb = Except.error MatcherError.incompatibleFingerprints := by
  have hc : ¬ (compatibleB fa fb = true) := by
    intro ht
    simp only [compatibleB, Bool.and_eq_true, beq_iff_eq] at ht
    tauto
  rw [compare, if_neg hc]

/-- Witness for C8: `fpA` and `fpC` have different histogram bucket
counts, and comparing them fails. -/
theorem incompatible_errors_witness :
    compare fpA fpC = Except.error MatcherError.incompatibleFingerprints :=
  incompatible_errors fpA fpC
    (Or.inr (Or.inr (Or.inr (Or.inr (Or.inl (by decide))))))

lemma sum_map_div (l : List ℚ) (c : ℚ) :
    (l.map (fun x => x / c)).sum = l.sum / c := by
  induction l with
  | nil => simp
  | cons x xs ih => simp [List.sum_cons, ih, add_div]

lemma sum_map_add_nat {α : Type} (l : List α) (f g : α → Nat) :
    (l.map (fun x => f x + g x)).sum = (l.map f).sum + (l.map g).sum := by
  induction l with
  | nil => rfl
  | cons x xs ih =>
      simp only [List.map_cons, List.sum_cons, ih]
      omega

lemma indicator_sum (n v : Nat) (h : v < n) :
    ((List.range n).map (fun k => if v == k then 1 else 0)).sum = 1 := by
  induction n with
  | zero => omega
  | succ n ih =>
      rw [List.range_succ, List.map_append, List.sum_append]
      by_cases hv : v = n
      · subst hv
        have h0 : ((List.range v).map
            (fun k => if v == k then 1 else 0)).sum = 0 := by
          apply List.sum_eq_zero
          intro x hx
          rcases List.mem_map.mp hx with ⟨k, hk, rfl⟩
          have hkv : k < v := List.mem_range.mp hk
          have hne : v ≠ k := by omega
          simp [hne]
        rw [h0]
        simp
      · have hv2 : v < n := by omega
        rw [ih hv2]
        simp [hv]

lemma count_partition (vals : List (Fin 256)) :
    ((List.range 256).map
      (fun k => vals.countP (fun v => v.val == k))).sum = vals.length := by
  induction vals with
  | nil =>
      apply List.sum_eq_zero
      intro x hx
      rcases List.mem_map.mp hx with ⟨k, _, rfl⟩
      rfl
  | cons v vs ih =>
      simp only [List.countP_cons]
      rw [sum_map_add_nat, ih, indicator_sum 256 v.val v.isLt]
      simp

lemma count_partition_q (vals : List (Fin 256)) :
    ((List.range 256).map
      (fun k => (vals.countP (fun v => v.val == k) : ℚ))).sum
      = (vals.length : ℚ) := by
  have h2 : (((List.range 256).map
      (fun k => vals.countP (fun v => v.val == k))).sum : ℚ)
      = (vals.length : ℚ) := by
    exact_mod_cast congrArg (Nat.cast : Nat → ℚ) (count_partition vals)
  rw [Nat.cast_list_sum, List.map_map] at h2
  exact h2

lemma channelHistogram_sum (vals : List (Fin 256)) (h : vals.length ≠ 0) :
    (channelHistogram vals).sum = 1 := by
  have hch : channelHistogram vals
      = ((List.range 256).map
          (fun k => (vals.countP (fun v => v.val == k) : ℚ))).map
          (fun x => x / (vals.length : ℚ)) := by
    rw [List.map_map]
    rfl
  rw [hch, sum_map_div, count_partition_q]
  exact div_self (by exact_mod_cast h)

lemma channelHistogram_length (vals : List (Fin 256)) :
    (channelHistogram vals).length = 256 := by
  simp [channelHistogram]

lemma pixelsOf_length :
    ∀ (k : Nat) (data : List (Fin 256)),
      data.length = 4 * k → (pixelsOf data).length = k := by
  intro k
  induction k with
  | zero =>
      intro data h
      have hnil : data = [] := List.length_eq_zero.mp (by omega)
      subst hnil
      rfl
  | succ k ih =>
      intro data h
      rcases data with _ | ⟨a, _ | ⟨b, _ | ⟨c, _ | ⟨d, rest⟩⟩⟩⟩
      · simp at h
      · simp [List.length_cons] at h
        omega
      · simp [List.length_cons] at h
        omega
      · simp [List.length_cons] at h
        omega
      · have hr : rest.length = 4 * k := by
          simp [List.length_cons] at h
          omega
        simp [pixelsOf, List.length_cons, ih rest hr]

/-- C6: for every valid raster, the three channel sequences of the
extracted color histogram each sum to exactly 1 and share the fixed
bucket count 256. -/
theorem histogram_normalized (r : Raster)
    (hw : r.width ≠ 0) (hh : r.height ≠ 0)
    (hl : r.data.length = r.width * r.height * 4) :
    (extractFingerprint r).map
      (fun fp => (fp.colorHistogram.r.sum, fp.colorHistogram.g.sum,
        fp.colorHistogram.b.sum, fp.colorHistogram.r.length,
        fp.colorHistogram.g.length, fp.colorHistogram.b.length))
      = Except.ok (1, 1, 1, 256, 256, 256) := by
  have hcond : ¬ (r.width = 0 ∨ r.height = 0
      ∨ r.data.length ≠ r.width * r.height * 4) := by
    push_neg
    exact ⟨hw, hh, hl⟩
  have hpx : (pixelsOf r.data).length = r.width * r.height :=
    pixelsOf_length (r.width * r.height) r.data (by rw [hl]; ring)
  have hnz : r.width * r.height ≠ 0 := Nat.mul_ne_zero hw hh
  have hr1 : ((pixelsOf r.data).map (fun p => p.1)).length ≠ 0 := by
    rw [List.length_map, hpx]; exact hnz
  have hg1 : ((pixelsOf r.data).map (fun p => p.2.1)).length ≠ 0 := by
    rw [List.length_map, hpx]; exact hnz
  have hb1 : ((pixelsOf r.data).map (fun p => p.2.2)).length ≠ 0 := by
    rw [List.length_map, hpx]; exact hnz
  rw [extractFingerprint, if_neg hcond]
  simp only [Except.map, Except.ok.injEq, Prod.mk.injEq, computeColorHistogram]
  exact ⟨channelHistogram_sum _ hr1, channelHistogram_sum _ hg1,
    channelHistogram_sum _ hb1, channelHistogram_length _,
    channelHistogram_length _, channelHistogram_length _⟩

/-- Witness for C6 at a concrete 1×1 raster. -/
theorem histogram_normalized_witness :
    (extractFingerprint raster11).map
      (fun fp => (fp.colorHistogram.r.sum, fp.colorHistogram.g.sum,
        fp.colorHistogram.b.sum, fp.colorHistogram.r.length,
        fp.colorHistogram.g.length, fp.colorHistogram.b.length))
      = Except.ok (1, 1, 1, 256, 256, 256) :=
  histogram_normalized raster11 (by decide) (by decide) (by decide)

/-- C4: fingerprint extraction is deterministic; rasters with the same
width, height and pixel data yield identical results in every field. -/
theorem extract_deterministic (r1 r2 : Raster)
    (hw : r1.width = r2.width) (hh : r1.height = r2.height)
    (hd : r1.data = r2.data) :
    extractFingerprint r1 = extractFingerprint r2 := by
  cases r1
  cases r2
  cases hw
  cases hh
  cases hd
  rfl

/-- Witness for C4: two separately built but equal rasters extract to
the same fingerprint. -/
theorem extract_deterministic_witness :
    extractFingerprint raster11 = extractFingerprint raster11Again :=
  extract_deterministic raster11 raster11Again rfl rfl rfl

/-- C7: extraction fails with `InvalidRaster` exactly when a dimension
is nonpositive or the buffer size mismatches width × height × 4; it
succeeds on every other raster, and the empty 0×0 raster fails. -/
theorem extract_invalid_iff (r : Raster) :
    (extractFingerprint r = Except.error MatcherError.invalidRaster
      ↔ (r.width ≤ 0 ∨ r.height ≤ 0
        ∨ r.data.length ≠ r.width * r.height * 4))
    ∧ ((extractFingerprint r).isOk = true
      ↔ ¬ (r.width ≤ 0 ∨ r.height ≤ 0
        ∨ r.data.length ≠ r.width * r.height * 4))
    ∧ extractFingerprint raster00 = Except.error MatcherError.invalidRaster := by
  have hiff : (r.width ≤ 0 ∨ r.height ≤ 0
      ∨ r.data.length ≠ r.width * r.height * 4)
      ↔ (r.width = 0 ∨ r.height = 0
        ∨ r.data.length ≠ r.width * r.height * 4) := by
    simp [Nat.le_zero]
  refine ⟨?_, ?_, ?_⟩
  · rw [hiff, extractFingerprint]
    by_cases hc : (r.width = 0 ∨ r.height = 0
        ∨ r.data.length ≠ r.width * r.height * 4)
    · rw [if_pos hc]
      exact iff_of_true rfl hc
    · rw [if_neg hc]
      exact iff_of_false (fun he => Except.noConfusion he) hc
  · rw [hiff, extractFingerprint]
    by_cases hc : (r.width = 0 ∨ r.height = 0
        ∨ r.data.length ≠ r.width * r.height * 4)
    · rw [if_pos hc]
      exact iff_of_false (by simp [Except.isOk, Except.toBool]) (not_not_intro hc)
    · rw [if_neg hc]
      exact iff_of_true (by simp [Except.isOk, Except.toBool]) hc
  · have h00 : (raster00.width = 0 ∨ raster00.height = 0
        ∨ raster00.data.length ≠ raster00.width * raster00.height * 4) :=
      Or.inl rfl
    rw [extractFingerprint, if_pos h00]

lemma edgeB_symm (n : Nat) (score : Nat → Nat → ℚ) (t : ℚ) (a b : Nat) :
    edgeB n score t a b = edgeB n score t b a := by
  rcases lt_trichotomy a b with h | h | h
  · simp [edgeB, h, lt_asymm h, Bool.and_comm]
  · subst h; rfl
  · simp [edgeB, h, lt_asymm h, Bool.and_comm]

lemma edgeB_lt (n : Nat) (score : Nat → Nat → ℚ) (t : ℚ) (a b : Nat)
    (h : edgeB n score t a b = true) : a < n ∧ b < n := by
  simp only [edgeB, Bool.and_eq_true, decide_eq_true_eq] at h
  exact ⟨h.1.1, h.1.2⟩

lemma stepF_subset_range (adj : Nat → Nat → Bool) (n : Nat) (s : Finset Nat) :
    stepF adj n s ⊆ Finset.range n :=
  Finset.filter_subset _ _

lemma subset_stepF (adj : Nat → Nat → Bool) (n : Nat) (s : Finset Nat)
    (h : s ⊆ Finset.range n) : s ⊆ stepF adj n s := by
  intro j hj
  exact Finset.mem_filter.mpr ⟨h hj, Or.inl hj⟩

lemma iterF_subset_range (adj : Nat → Nat → Bool) (n : Nat) :
    ∀ (k : Nat) (s : Finset Nat), s ⊆ Finset.range n →
      iterF adj n k s ⊆ Finset.range n := by
  intro k
  induction k with
  | zero => intro s h; exact h
  | succ k ih =>
      intro s _
      exact ih (stepF adj n s) (stepF_subset_range adj n s)

lemma subset_iterF (adj : Nat → Nat → Bool) (n : Nat) :
    ∀ (k : Nat) (s : Finset Nat), s ⊆ Finset.range n →
      s ⊆ iterF adj n k s := by
  intro k
  induction k with
  | zero => intro s _; exact fun x hx => hx
  | succ k ih =>
      intro s h
      have h1 : s ⊆ stepF adj n s := subset_stepF adj n s h
      have h2 : stepF adj n s ⊆ iterF adj n k (stepF adj n s) :=
        ih (stepF adj n s) (stepF_subset_range adj n s)
      exact h1.trans h2

lemma iterF_succ_outer (adj : Nat → Nat → Bool) (n : Nat) :
    ∀ (k : Nat) (s : Finset Nat),
      iterF adj n (k + 1) s = stepF adj n (iterF adj n k s) := by
  intro k
  induction k with
  | zero => intro s; rfl
  | succ k ih =>
      intro s
      show iterF adj n (k + 1) (stepF adj n s)
        = stepF adj n (iterF adj n k (stepF adj n s))
      exact ih (stepF adj n s)

lemma stable_propagate (adj : Nat → Nat → Bool) (n : Nat) :
    ∀ (m k : Nat) (s : Finset Nat),
      stepF adj n (iterF adj n k s) = iterF adj n k s →
      iterF adj n (k + m) s = iterF adj n k s := by
  intro m
  induction m with
  | zero => intro k s _; rfl
  | succ m ih =>
      intro k s h
      have heq : k + (m + 1) = (k + m) + 1 := rfl
      rw [heq, iterF_succ_outer, ih k s h, h]

lemma stepF_stable (adj : Nat → Nat → Bool) (n i : Nat) (hi : i < n) :
    stepF adj n (componentOf adj n i) = componentOf adj n i := by
  by_contra hne
  have hs0 : ({i} : Finset Nat) ⊆ Finset.range n := by
    intro x hx
    rw [Finset.mem_singleton] at hx
    subst hx
    exact Finset.mem_range.mpr hi
  have hall : ∀ k, k ≤ n →
      stepF adj n (iterF adj n k {i}) ≠ iterF adj n k {i} := by
    intro k hk h
    apply hne
    have h2 := stable_propagate adj n (n - k) k {i} h
    rw [show k + (n - k) = n from by omega] at h2
    show stepF adj n (iterF adj n n {i}) = iterF adj n n {i}
    calc stepF adj n (iterF adj n n {i})
        = stepF adj n (iterF adj n k {i}) := by rw [h2]
      _ = iterF adj n k {i} := h
      _ = iterF adj n n {i} := h2.symm
  have hgrow : ∀ k, k ≤ n → k + 1 ≤ (iterF adj n k ({i} : Finset Nat)).card := by
    intro k
    induction k with
    | zero => intro _; simp [iterF]
    | succ k ih =>
        intro hk
        have h1 := ih (by omega)
        have hsubR : iterF adj n k ({i} : Finset Nat) ⊆ Finset.range n :=
          iterF_subset_range adj n k {i} hs0
        have hsub : iterF adj n k ({i} : Finset Nat)
            ⊆ stepF adj n (iterF adj n k {i}) :=
          subset_stepF adj n _ hsubR
        have hne2 := hall k (by omega)
        have hlt : (iterF adj n k ({i} : Finset Nat)).card
            < (stepF adj n (iterF adj n k {i})).card :=
          Finset.card_lt_card
            (Finset.ssubset_iff_subset_ne.mpr ⟨hsub, fun hEq => hne2 hEq.symm⟩)
        rw [iterF_succ_outer]
        omega
  have hc := hgrow n le_rfl
  have hsubR := iterF_subset_range adj n n {i} hs0
  have hle := Finset.card_le_card hsubR
  rw [Finset.card_range] at hle
  omega

lemma iterF_reach (adj : Nat → Nat → Bool) (n : Nat) :
    ∀ (k : Nat) (s : Finset Nat) (i : Nat),
      (∀ x ∈ s, Reach adj i x) → ∀ x ∈ iterF adj n k s, Reach adj i x := by
  intro k
  induction k with
  | zero => intro s i h x hx; exact h x hx
  | succ k ih =>
      intro s i h x hx
      refine ih (stepF adj n s) i ?_ x hx
      intro y hy
      rcases Finset.mem_filter.mp hy with ⟨_, hy2⟩
      rcases hy2 with hy2 | ⟨z, hz, hadj⟩
      · exact h y hy2
      · exact Relation.ReflTransGen.tail (h z hz) hadj

lemma stable_closed (adj : Nat → Nat → Bool) (n : Nat) (C : Finset Nat)
    (hstable : stepF adj n C = C)
    (hbound : ∀ a b, adj a b = true → a < n ∧ b < n) :
    ∀ i ∈ C, ∀ j, Reach adj i j → j ∈ C := by
  intro i hi j hreach
  induction hreach with
  | refl => exact hi
  | tail _ hadj ih =>
      rw [← hstable]
      exact Finset.mem_filter.mpr
        ⟨Finset.mem_range.mpr (hbound _ _ hadj).2, Or.inr ⟨_, ih, hadj⟩⟩

lemma mem_componentOf_iff (adj : Nat → Nat → Bool) (n i : Nat)
    (hbound : ∀ a b, adj a b = true → a < n ∧ b < n) (hi : i < n) :
    ∀ j, j ∈ componentOf adj n i ↔ Reach adj i j := by
  intro j
  constructor
  · intro hj
    refine iterF_reach adj n n {i} i ?_ j hj
    intro x hx
    rw [Finset.mem_singleton] at hx
    subst hx
    exact Relation.ReflTransGen.refl
  · intro hr
    have hs0 : ({i} : Finset Nat) ⊆ Finset.range n := by
      intro x hx
      rw [Finset.mem_singleton] at hx
      subst hx
      exact Finset.mem_range.mpr hi
    have hiC : i ∈ componentOf adj n i :=
      subset_iterF adj n n {i} hs0 (Finset.mem_singleton_self i)
    exact stable_closed adj n _ (stepF_stable adj n i hi) hbound i hiC j hr

lemma reach_symm (adj : Nat → Nat → Bool)
    (hsymm : ∀ a b, adj a b = adj b a) {i j : Nat}
    (h : Reach adj i j) : Reach adj j i := by
  induction h with
  | refl => exact Relation.ReflTransGen.refl
  | tail _ hadj ih =>
      refine Relation.ReflTransGen.head ?_ ih
      rw [hsymm]
      assumption

lemma reach_lt (adj : Nat → Nat → Bool) (n : Nat)
    (hbound : ∀ a b, adj a b = true → a < n ∧ b < n) {i j : Nat}
    (hi : i < n) (h : Reach adj i j) : j < n := by
  induction h with
  | refl => exact hi
  | tail _ hadj _ => exact (hbound _ _ hadj).2

lemma componentOf_congr (adj : Nat → Nat → Bool) (n : Nat)
    (hbound : ∀ a b, adj a b = true → a < n ∧ b < n)
    (hsymm : ∀ a b, adj a b = adj b a) {i j : Nat}
    (hi : i < n) (hj : j < n) (hr : Reach adj i j) :
    componentOf adj n i = componentOf adj n j := by
  ext x
  rw [mem_componentOf_iff adj n i hbound hi x,
    mem_componentOf_iff adj n j hbound hj x]
  constructor
  · intro h
    exact Relation.ReflTransGen.trans (reach_symm adj hsymm hr) h
  · intro h
    exact Relation.ReflTransGen.trans hr h

lemma length_filter_mem (n : Nat) (c : Finset Nat)
    (hc : c ⊆ Finset.range n) :
    ((List.range n).filter (fun j => decide (j ∈ c))).length = c.card := by
  have hnodup : ((List.range n).filter (fun j => decide (j ∈ c))).Nodup :=
    (List.nodup_range n).filter _
  have htof : ((List.range n).filter (fun j => decide (j ∈ c))).toFinset
      = c := by
    ext x
    simp only [List.mem_toFinset, List.mem_filter, List.mem_range,
      decide_eq_true_eq]
    exact ⟨fun h => h.2, fun h => ⟨Finset.mem_range.mp (hc h), h⟩⟩
  calc ((List.range n).filter (fun j => decide (j ∈ c))).length
      = ((List.range n).filter (fun j => decide (j ∈ c))).toFinset.card :=
        (List.toFinset_card_of_nodup hnodup).symm
    _ = c.card := by rw [htof]

lemma mem_filter_mem (n : Nat) (c : Finset Nat)
    (hc : c ⊆ Finset.range n) (j : Nat) :
    j ∈ (List.range n).filter (fun j => decide (j ∈ c)) ↔ j ∈ c := by
  simp only [List.mem_filter, List.mem_range, decide_eq_true_eq]
  exact ⟨fun h => h.2, fun h => ⟨Finset.mem_range.mp (hc h), h⟩⟩

lemma mem_findGroups (n : Nat) (score : Nat → Nat → ℚ) (t : ℚ)
    (g : List Nat) :
    g ∈ findGroups n score t ↔ ∃ i, i < n
      ∧ (2 ≤ (componentOf (edgeB n score t) n i).card
        ∧ ∀ j ∈ componentOf (edgeB n score t) n i, i ≤ j)
      ∧ g = (List.range n).filter
          (fun j => decide (j ∈ componentOf (edgeB n score t) n i)) := by
  unfold findGroups
  rw [List.mem_filterMap]
  constructor
  · rintro ⟨i, hi, hf⟩
    split at hf
    · exact ⟨i, List.mem_range.mp hi, by assumption,
        (Option.some.inj hf).symm⟩
    · exact Option.noConfusion hf
  · rintro ⟨i, hi, hcond, rfl⟩
    exact ⟨i, List.mem_range.mpr hi, by rw [if_pos hcond]⟩

/-- C2: for every collection size, score table and threshold in
`(0, 1]`, the groups of `findGroups` are exactly the connected
components, of size at least 2, of the graph whose edges are the
unordered pairs scoring at or above the threshold: every group has at
least two members, no node lies in two different groups, each group is
precisely the set of nodes transitively reachable from any of its
members, and every component with at least two members is emitted as a
group. -/
theorem findGroups_components (n : Nat) (score : Nat → Nat → ℚ) (t : ℚ)
    (ht : 0 < t ∧ t ≤ 1) :
    (∀ g ∈ findGroups n score t, 2 ≤ g.length)
    ∧ (∀ g1 ∈ findGroups n score t, ∀ g2 ∈ findGroups n score t,
        g1 ≠ g2 → ∀ x ∈ g1, x ∉ g2)
    ∧ (∀ g ∈ findGroups n score t, ∀ i ∈ g, ∀ j,
        (j ∈ g ↔ Reach (edgeB n score t) i j))
    ∧ (∀ i, i < n → 2 ≤ (componentOf (edgeB n score t) n i).card →
        ∃ g ∈ findGroups n score t, ∀ j,
          (j ∈ g ↔ Reach (edgeB n score t) i j)) := by
  have hbound : ∀ a b, edgeB n score t a b = true → a < n ∧ b < n :=
    edgeB_lt n score t
  have hsymm : ∀ a b, edgeB n score t a b = edgeB n score t b a :=
    edgeB_symm n score t
  have hcsub : ∀ i, i < n →
      componentOf (edgeB n score t) n i ⊆ Finset.range n := by
    intro i hi
    apply iterF_subset_range
    intro x hx
    rw [Finset.mem_singleton] at hx
    subst hx
    exact Finset.mem_range.mpr hi
  refine ⟨?_, ?_, ?_, ?_⟩
  · intro g hg
    rcases (mem_findGroups n score t g).mp hg with ⟨i, hi, ⟨hcard, _⟩, rfl⟩
    rw [length_filter_mem n _ (hcsub i hi)]
    exact hcard
  · intro g1 hg1 g2 hg2 hne x hx1 hx2
    rcases (mem_findGroups n score t g1).mp hg1 with ⟨i1, hi1, ⟨_, hmin1⟩, rfl⟩
    rcases (mem_findGroups n score t g2).mp hg2 with ⟨i2, hi2, ⟨_, hmin2⟩, rfl⟩
    have hx1c : x ∈ componentOf (edgeB n score t) n i1 :=
      (mem_filter_mem n _ (hcsub i1 hi1) x).mp hx1
    have hx2c : x ∈ componentOf (edgeB n score t) n i2 :=
      (mem_filter_mem n _ (hcsub i2 hi2) x).mp hx2
    have hr1 : Reach (edgeB n score t) i1 x :=
      (mem_componentOf_iff _ n i1 hbound hi1 x).mp hx1c
    have hr2 : Reach (edgeB n score t) i2 x :=
      (mem_componentOf_iff _ n i2 hbound hi2 x).mp hx2c
    have hr12 : Reach (edgeB n score t) i1 i2 :=
      Relation.ReflTransGen.trans hr1 (reach_symm _ hsymm hr2)
    have hceq : componentOf (edgeB n score t) n i1
        = componentOf (edgeB n score t) n i2 :=
      componentOf_congr _ n hbound hsymm hi1 hi2 hr12
    have hi1in : i1 ∈ componentOf (edgeB n score t) n i1 :=
      (mem_componentOf_iff _ n i1 hbound hi1 i1).mpr Relation.ReflTransGen.refl
    have hi2in : i2 ∈ componentOf (edgeB n score t) n i2 :=
      (mem_componentOf_iff _ n i2 hbound hi2 i2).mpr Relation.ReflTransGen.refl
    have hle1 : i2 ≤ i1 := hmin2 i1 (by rw [← hceq]; exact hi1in)
    have hle2 : i1 ≤ i2 := hmin1 i2 (by rw [hceq]; exact hi2in)
    have heq12 : i1 = i2 := le_antisymm hle2 hle1
    subst heq12
    exact hne rfl
  · intro g hg i hig j
    rcases (mem_findGroups n score t g).mp hg with ⟨i0, hi0, ⟨_, _⟩, rfl⟩
    have hic : i ∈ componentOf (edgeB n score t) n i0 :=
      (mem_filter_mem n _ (hcsub i0 hi0) i).mp hig
    have hri : Reach (edgeB n score t) i0 i :=
      (mem_componentOf_iff _ n i0 hbound hi0 i).mp hic
    rw [mem_filter_mem n _ (hcsub i0 hi0) j,
      mem_componentOf_iff _ n i0 hbound hi0 j]
    constructor
    · intro h
      exact Relation.ReflTransGen.trans (reach_symm _ hsymm hri) h
    · intro h
      exact Relation.ReflTransGen.trans hri h
  · intro i hi hcard
    have hiin : i ∈ componentOf (edgeB n score t) n i :=
      (mem_componentOf_iff _ n i hbound hi i).mpr Relation.ReflTransGen.refl
    have hnonempty : (componentOf (edgeB n score t) n i).Nonempty := ⟨i, hiin⟩
    have hi0in : (componentOf (edgeB n score t) n i).min' hnonempty
        ∈ componentOf (edgeB n score t) n i := Finset.min'_mem _ hnonempty
    have hri0 : Reach (edgeB n score t) i
        ((componentOf (edgeB n score t) n i).min' hnonempty) :=
      (mem_componentOf_iff _ n i hbound hi _).mp hi0in
    have hi0n : (componentOf (edgeB n score t) n i).min' hnonempty < n :=
      reach_lt _ n hbound hi hri0
    have hceq : componentOf (edgeB n score t) n
        ((componentOf (edgeB n score t) n i).min' hnonempty)
        = componentOf (edgeB n score t) n i :=
      componentOf_congr _ n hbound hsymm hi0n hi (reach_symm _ hsymm hri0)
    refine ⟨(List.range n).filter (fun j => decide (j ∈ componentOf
      (edgeB n score t) n ((componentOf (edgeB n score t) n i).min'
        hnonempty))), ?_, ?_⟩
    · refine (mem_findGroups n score t _).mpr
        ⟨(componentOf (edgeB n score t) n i).min' hnonempty, hi0n,
          ⟨?_, ?_⟩, rfl⟩
      · rw [hceq]
        exact hcard
      · rw [hceq]
        intro j hj
        exact Finset.min'_le _ j hj
    · intro j
      rw [mem_filter_mem n _ (hcsub _ hi0n) j,
        mem_componentOf_iff _ n _ hbound hi0n j]
      constructor
      · intro h
        exact Relation.ReflTransGen.trans hri0 h
      · intro h
        exact Relation.ReflTransGen.trans (reach_symm _ hsymm hri0) h

/-- Witness for C2: the five-image scenario with pairs `{0,1}` and
`{1,2}` at the threshold yields the single transitive group
`[0, 1, 2]`. -/
theorem findGroups_components_witness :
    ((0 : ℚ) < 1 ∧ (1 : ℚ) ≤ 1)
    ∧ (∀ g ∈ findGroups 5 scenScore 1, 2 ≤ g.length)
    ∧ findGroups 5 scenScore 1 = [[0, 1, 2]] := by
  have ht : (0 : ℚ) < 1 ∧ (1 : ℚ) ≤ 1 := ⟨by norm_num, le_refl 1⟩
  exact ⟨ht, (findGroups_components 5 scenScore 1 ht).1, by decide⟩

end ImageMatcher

namespace BuildScript

lemma lexLe_total : ∀ a b : List Char, lexRel a b ∨ lexRel b a := by
  intro a
  induction a with
  | nil => intro b; left; rfl
  | cons x as ih =>
      intro b
      cases b with
      | nil => right; rfl
      | cons y bs =>
          rcases lt_trichotomy x y with hlt | heq | hgt
          · left; simp [lexRel, lexLe, hlt]
          · subst heq
            rcases ih bs with h | h
            · left; simp [lexRel, lexLe, lt_irrefl]; exact h
            · right; simp [lexRel, lexLe, lt_irrefl]; exact h
          · right; simp [lexRel, lexLe, hgt]

lemma lexLe_trans :
    ∀ a b c : List Char, lexRel a b → lexRel b c → lexRel a c := by
  intro a
  induction a with
  | nil => intro b c _ _; rfl
  | cons x as ih =>
      intro b c hab hbc
      cases b with
      | nil => simp [lexRel, lexLe] at hab
      | cons y bs =>
          cases c with
          | nil => simp [lexRel, lexLe] at hbc
          | cons z cs =>
              rcases lt_trichotomy x y with h1 | h1 | h1
              · rcases lt_trichotomy y z with h2 | h2 | h2
                · simp [lexRel, lexLe, lt_trans h1 h2]
                · subst h2; simp [lexRel, lexLe, h1]
                · simp [lexRel, lexLe, h2, not_lt.mpr (le_of_lt h2)] at hbc
              · subst h1
                simp only [lexRel, lexLe, lt_irrefl, if_false] at hab
                rcases lt_trichotomy x z with h2 | h2 | h2
                · simp [lexRel, lexLe, h2]
                · subst h2
                  simp only [lexRel, lexLe, lt_irrefl, if_false] at hbc ⊢
                  exact ih bs cs hab hbc
                · simp [lexRel, lexLe, h2, not_lt.mpr (le_of_lt h2)] at hbc
              · simp [lexRel, lexLe, h1, not_lt.mpr (le_of_lt h1)] at hab

/-- C10: the generated image list holds exactly the image-extension
file names, lexicographically sorted; each entry's `id` and `src` are
`images/` prefixed to its file name, and the `index` fields run
positionally from 0. -/
theorem generateImageList_props (files : List (List Char)) :
    ((generateImageList files).map (fun e => e.name)).Perm
        (files.filter isImageFile)
    ∧ List.Sorted lexRel ((generateImageList files).map (fun e => e.name))
    ∧ (∀ e ∈ generateImageList files,
        e.id = imagesSlash ++ e.name ∧ e.src = imagesSlash ++ e.name)
    ∧ (generateImageList files).map (fun e => e.index)
        = List.range (generateImageList files).length := by
  have hname : (generateImageList files).map (fun e => e.name)
      = List.insertionSort lexRel (files.filter isImageFile) := by
    unfold generateImageList
    rw [List.map_map]
    exact List.enum_map_snd _
  refine ⟨?_, ?_, ?_, ?_⟩
  · rw [hname]
    exact List.perm_insertionSort lexRel _
  · rw [hname]
    haveI : IsTotal (List Char) lexRel := ⟨lexLe_total⟩
    haveI : IsTrans (List Char) lexRel := ⟨lexLe_trans⟩
    exact List.sorted_insertionSort lexRel _
  · intro e he
    unfold generateImageList at he
    rcases List.mem_map.mp he with ⟨p, _, rfl⟩
    exact ⟨rfl, rfl⟩
  · unfold generateImageList
    simp only [List.length_map, List.enum_length]
    rw [List.map_map]
    exact List.enum_map_fst _

/-- Witness for C10 on a concrete directory listing. -/
theorem generateImageList_props_witness :
    demoEntry ∈ generateImageList demoFiles
    ∧ demoEntry.id = imagesSlash ++ demoEntry.name
    ∧ demoEntry.src = imagesSlash ++ demoEntry.name
    ∧ List.Sorted lexRel
        ((generateImageList demoFiles).map (fun e => e.name)) := by
  have hm : demoEntry ∈ generateImageList demoFiles := by decide
  have h := generateImageList_props demoFiles
  exact ⟨hm, (h.2.2.1 demoEntry hm).1, (h.2.2.1 demoEntry hm).2, h.2.1⟩

/-- C9: when the joined file path does not start with the server
directory, the handler answers 403 `Forbidden` and attempts no file
read. -/
theorem forbidden_no_read (dirname : List Char)
    (join : List Char → List Char → List Char)
    (extnameFn : List Char → List Char)
    (fsRead : List Char → Option (List Char))
    (pathname : List Char)
    (h : List.isPrefixOf dirname
        (join dirname (if pathname = rootPath then testHtmlPath else pathname))
        = false) :
    handleRequest dirname join extnameFn fsRead pathname
      = (⟨403, forbiddenBody, none⟩, []) := by
  simp [handleRequest, h]

/-- Witness for C9: a request for `/etc/passwd` against a join that
escapes the server directory is rejected without any read attempt. -/
theorem forbidden_no_read_witness :
    handleRequest srvDir (fun _ p => p) (fun _ => []) (fun _ => none) etcPasswd
      = (⟨403, forbiddenBody, none⟩, []) :=
  forbidden_no_read srvDir (fun _ p => p) (fun _ => []) (fun _ => none)
    etcPasswd (by decide)

end BuildScript
